import Mathlib

/-!
Verification of the flash-sale reservation engine.

The definitions below are a shallow embedding of the backend core:
`ReservationsService` (create / complete / expireReservation /
handleExpiredReservations) together with `ProductsService.incrementStock`.
The persistent store is modelled as explicit state (`SysState`); each
service method is a pure function from state to result and new state.
Timestamps are naturals (milliseconds); stock counts are integers, matching
the database `int` columns.
-/

namespace FlashSale

/-- Claim lifecycle status, from `reservation.entity.ts`: `ACTIVE` is the
spec's `PENDING`, `COMPLETED` is `CONFIRMED`, `EXPIRED` is `RELEASED`. -/
inductive ReservationStatus where
  | ACTIVE
  | COMPLETED
  | EXPIRED
deriving DecidableEq, Repr

/-- A product row: the resource ledger record (`product.entity.ts` fields
used by the core: `id`, `availableStock`, `totalStock`). -/
structure Product where
  id : Nat
  availableStock : Int
  totalStock : Int
deriving DecidableEq, Repr

/-- A reservation row, from `reservation.entity.ts`. -/
structure Reservation where
  id : Nat
  productId : Nat
  quantity : Int
  status : ReservationStatus
  createdAt : Nat
  expiresAt : Nat
deriving DecidableEq, Repr

/-- The whole persistent store: the products table, the reservations table,
and a counter supplying fresh reservation ids (the database generates
uuids; we model them as successive naturals). -/
structure SysState where
  products : List Product
  reservations : List Reservation
  nextId : Nat
deriving DecidableEq, Repr

/-- The errors the service surfaces, one constructor per `throw` site in
`reservations.service.ts`. `nullDereference` marks the crash that would
occur at line 173 if the re-read inside `complete` found no record. -/
inductive ServiceError where
  | invalidQuantity
  | productNotFound
  | insufficientStock
  | internalError
  | reservationNotFound
  | cannotComplete (current : ReservationStatus)
  | expired
  | nullDereference
deriving DecidableEq, Repr

/-- Whether a call to `expireReservation` performed the transition and the
stock credit (`applied`) or returned on its early-exit guard (`skipped`).
The method itself returns `void`; this records which code path ran. -/
inductive ExpireOutcome where
  | applied
  | skipped
deriving DecidableEq, Repr

/-- The fixed hold duration: 2 minutes, in milliseconds
(`reservations.service.ts` line 82 and the job delay at line 102). -/
def holdDurationMs : Nat := 2 * 60 * 1000

/-- Row lookup in the products table by id (the locked select in `create`,
and `findOne` in `ProductsService`). -/
def findProduct (s : SysState) (pid : Nat) : Option Product :=
  s.products.find? fun p => decide (p.id = pid)

/-- Row lookup in the reservations table by id (`findOne({where:{id}})`). -/
def findReservation (s : SysState) (rid : Nat) : Option Reservation :=
  s.reservations.find? fun r => decide (r.id = rid)

/-- The `UPDATE products SET availableStock = availableStock - :quantity
WHERE id = :id` statement inside `create`. -/
def decrementStock (s : SysState) (pid : Nat) (quantity : Int) : SysState :=
  { s with products := s.products.map fun p =>
      if p.id = pid then { p with availableStock := p.availableStock - quantity } else p }

/-- `ProductsService.incrementStock`: `repository.increment({id},
'availableStock', quantity)`. -/
def incrementStock (s : SysState) (pid : Nat) (quantity : Int) : SysState :=
  { s with products := s.products.map fun p =>
      if p.id = pid then { p with availableStock := p.availableStock + quantity } else p }

/-- `repository.save(record)` for an existing reservation row: replaces the
row with the same id. -/
def saveReservation (s : SysState) (rec : Reservation) : SysState :=
  { s with reservations := s.reservations.map fun r => if r.id = rec.id then rec else r }

/-- `ReservationsService.create` (the `reserve` operation). `now` is the
wall clock at the call; `infraFail` injects an unexpected infrastructure
failure inside the transaction, which the `catch` block answers with a
rollback and a generic `InternalServerErrorException`. All error paths
return the state unchanged, mirroring `rollbackTransaction`. -/
def create (s : SysState) (productId : Nat) (quantity : Int) (now : Nat)
    (infraFail : Bool) : Except ServiceError Reservation × SysState :=
  if quantity < 1 then (.error .invalidQuantity, s)
  else if infraFail then (.error .internalError, s)
  else
    match findProduct s productId with
    | none => (.error .productNotFound, s)
    | some product =>
      if product.availableStock < quantity then (.error .insufficientStock, s)
      else
        let reservation : Reservation :=
          { id := s.nextId, productId := productId, quantity := quantity,
            status := .ACTIVE, createdAt := now, expiresAt := now + holdDurationMs }
        let s1 := decrementStock s productId quantity
        (.ok reservation,
          { s1 with reservations := s1.reservations ++ [reservation],
                    nextId := s.nextId + 1 })

/-- `ReservationsService.complete` (the `confirm` operation), with its two
reads made explicit: the first `findOne` reads from `s0`, the re-read at
line 169 reads from `s`, and all writes go to `s`. A background trigger
firing between the two reads is modelled by passing distinct `s0` and `s`;
the purely sequential call is `complete` below, where `s0 = s`. -/
def completeCore (s0 s : SysState) (rid : Nat) (now : Nat) :
    Except ServiceError Reservation × SysState :=
  match findReservation s0 rid with
  | none => (.error .reservationNotFound, s)
  | some reservation =>
    if reservation.status ≠ .ACTIVE then
      (.error (.cannotComplete reservation.status), s)
    else if now > reservation.expiresAt then
      match findReservation s rid with
      | none => (.error .nullDereference, s)
      | some current =>
        if current.status = .ACTIVE then
          let s1 := saveReservation s { current with status := .EXPIRED }
          (.error .expired, incrementStock s1 current.productId current.quantity)
        else (.error .expired, s)
    else
      let completed := { reservation with status := .COMPLETED }
      (.ok completed, saveReservation s completed)

/-- `ReservationsService.complete` run with no interleaving between its two
reads. -/
def complete (s : SysState) (rid : Nat) (now : Nat) :
    Except ServiceError Reservation × SysState :=
  completeCore s s rid now

/-- `ReservationsService.expireReservation` (the `resolveExpiry` path used
by both the queue processor and the cron sweeper). -/
def expireReservation (s : SysState) (reservationId : Nat) :
    ExpireOutcome × SysState :=
  match findReservation s reservationId with
  | none => (.skipped, s)
  | some reservation =>
    if reservation.status ≠ .ACTIVE then (.skipped, s)
    else
      let s1 := saveReservation s { reservation with status := .EXPIRED }
      (.applied, incrementStock s1 reservation.productId reservation.quantity)

/-- The query the cron sweeper runs each tick
(`handleExpiredReservations`): `find({status: ACTIVE, expiresAt:
LessThan(now)})`. Note the strict comparison. -/
def findExpiredPending (s : SysState) (now : Nat) : List Reservation :=
  s.reservations.filter fun r => decide (r.status = .ACTIVE ∧ r.expiresAt < now)

/-- One tick of the cron sweeper: query the overdue `ACTIVE` rows, then
call `expireReservation` on each in order. -/
def handleExpiredReservations (s : SysState) (now : Nat) : SysState :=
  (findExpiredPending s now).foldl (fun st r => (expireReservation st r.id).2) s

/-- Available stock of product `pid` as an external reader sees it. -/
def availOf (s : SysState) (pid : Nat) : Int :=
  match findProduct s pid with
  | some p => p.availableStock
  | none => 0

/-- Sum of the quantities of the `ACTIVE` (spec: `PENDING`) rows in a list
of reservations that target product `pid`. -/
def listPendingSum (l : List Reservation) (pid : Nat) : Int :=
  ((l.filter fun r =>
      decide (r.status = .ACTIVE ∧ r.productId = pid)).map Reservation.quantity).sum

/-- Sum of the quantities of the `ACTIVE` (spec: `PENDING`) reservations
against a product. -/
def pendingSum (s : SysState) (pid : Nat) : Int :=
  listPendingSum s.reservations pid

/-- The reservation row `create` inserts when it succeeds. -/
def newClaim (s : SysState) (pid : Nat) (q : Int) (now : Nat) : Reservation :=
  { id := s.nextId, productId := pid, quantity := q,
    status := .ACTIVE, createdAt := now, expiresAt := now + holdDurationMs }

/-- One step of the system: any `create`, `complete` or `expireReservation`
call, at any time, with any arguments, including failing ones. -/
inductive Step : SysState → SysState → Prop where
  | reserve (s : SysState) (pid : Nat) (q : Int) (now : Nat) (infraFail : Bool) :
      Step s (create s pid q now infraFail).2
  | confirm (s : SysState) (rid : Nat) (now : Nat) :
      Step s (complete s rid now).2
  | resolveExpiry (s : SysState) (rid : Nat) :
      Step s (expireReservation s rid).2

/-- Initial states: no reservations, every product full (`availableStock =
totalStock`, as seeded), non-negative stock, distinct product ids. -/
def Init (s : SysState) : Prop :=
  s.reservations = [] ∧
  (∀ p ∈ s.products, p.availableStock = p.totalStock ∧ 0 ≤ p.totalStock) ∧
  (s.products.map Product.id).Nodup

/-- States reachable from an initial state by service calls. -/
def Reachable (s0 s : SysState) : Prop :=
  Init s0 ∧ Relation.ReflTransGen Step s0 s

/-- The inductive invariant: product ids and reservation ids are distinct,
the id counter dominates every stored id, every reservation holds at least
one unit, and every product satisfies the ledger bound. -/
def Inv (s : SysState) : Prop :=
  (s.products.map Product.id).Nodup ∧
  (s.reservations.map Reservation.id).Nodup ∧
  (∀ r ∈ s.reservations, r.id < s.nextId ∧ 1 ≤ r.quantity) ∧
  ∀ p ∈ s.products, 0 ≤ p.availableStock ∧
    pendingSum s p.id + p.availableStock ≤ p.totalStock

/-! ### Concrete states used to exercise the theorems -/

/-- A one-product store: product 1 with 3 of 5 units available, and one
`ACTIVE` claim for 2 units whose deadline is at time 100. -/
def exampleMid : SysState :=
  { products := [⟨1, 3, 5⟩],
    reservations := [⟨0, 1, 2, .ACTIVE, 0, 100⟩], nextId := 1 }

/-- A one-product store whose single claim is already `COMPLETED`. -/
def exampleDone : SysState :=
  { products := [⟨1, 3, 5⟩],
    reservations := [⟨0, 1, 2, .COMPLETED, 0, 100⟩], nextId := 1 }

/-- A fresh one-product store with no claims. -/
def exampleFresh : SysState :=
  { products := [⟨1, 5, 5⟩], reservations := [], nextId := 0 }

/-! ### General list helpers -/

theorem find?_split {α : Type} (p : α → Bool) :
    ∀ {l : List α} {a : α}, l.find? p = some a →
      ∃ l1 l2, l = l1 ++ a :: l2 ∧ ∀ x ∈ l1, p x = false := by
  intro l
  induction l with
  | nil => intro a h; simp [List.find?] at h
  | cons y t ih =>
    intro a h
    by_cases hy : p y
    · refine ⟨[], t, ?_, by simp⟩
      rw [List.find?_cons_of_pos _ hy] at h
      simp at h
      simp [h]
    · rw [List.find?_cons_of_neg _ hy] at h
      obtain ⟨l1, l2, rfl, hl1⟩ := ih h
      exact ⟨y :: l1, l2, rfl, by
        intro x hx
        rcases List.mem_cons.mp hx with rfl | hx
        · exact Bool.of_not_eq_true hy
        · exact hl1 x hx⟩

theorem find?_map_stable {α : Type} (f : α → α) (p : α → Bool) (l : List α)
    (hf : ∀ x, p (f x) = p x) : (l.map f).find? p = (l.find? p).map f := by
  induction l with
  | nil => simp
  | cons y t ih =>
    by_cases hy : p y
    · simp [List.find?_cons_of_pos, hy, hf]
    · have hfy : ¬ p (f y) = true := by rw [hf]; exact hy
      simp only [List.map_cons]
      rw [List.find?_cons_of_neg _ hfy, List.find?_cons_of_neg _ hy, ih]

/-! ### Projection facts about the state operations -/

theorem saveReservation_products (s : SysState) (rec : Reservation) :
    (saveReservation s rec).products = s.products := rfl

theorem incrementStock_reservations (s : SysState) (pid : Nat) (q : Int) :
    (incrementStock s pid q).reservations = s.reservations := rfl

theorem findReservation_increment (s : SysState) (pid : Nat) (q : Int) (rid : Nat) :
    findReservation (incrementStock s pid q) rid = findReservation s rid := rfl

theorem findReservation_save (s : SysState) (rec : Reservation) (rid : Nat) :
    findReservation (saveReservation s rec) rid =
      (findReservation s rid).map fun r => if r.id = rec.id then rec else r := by
  unfold findReservation saveReservation
  apply find?_map_stable
  intro x
  by_cases hx : x.id = rec.id <;> simp [hx]

theorem findProduct_increment (s : SysState) (pid : Nat) (q : Int) (pid' : Nat) :
    findProduct (incrementStock s pid q) pid' =
      (findProduct s pid').map fun p =>
        if p.id = pid then { p with availableStock := p.availableStock + q } else p := by
  unfold findProduct incrementStock
  apply find?_map_stable
  intro x
  by_cases hx : x.id = pid <;> simp [hx]

theorem findProduct_decrement (s : SysState) (pid : Nat) (q : Int) (pid' : Nat) :
    findProduct (decrementStock s pid q) pid' =
      (findProduct s pid').map fun p =>
        if p.id = pid then { p with availableStock := p.availableStock - q } else p := by
  unfold findProduct decrementStock
  apply find?_map_stable
  intro x
  by_cases hx : x.id = pid <;> simp [hx]

theorem availOf_save (s : SysState) (rec : Reservation) (pid : Nat) :
    availOf (saveReservation s rec) pid = availOf s pid := rfl

theorem findProduct_id {s : SysState} {pid : Nat} {p : Product}
    (h : findProduct s pid = some p) : p.id = pid := by
  have := List.find?_some h
  simpa using this

theorem findReservation_id {s : SysState} {rid : Nat} {r : Reservation}
    (h : findReservation s rid = some r) : r.id = rid := by
  have := List.find?_some h
  simpa using this

theorem availOf_increment_self {s : SysState} {pid : Nat} {p : Product} (q : Int)
    (h : findProduct s pid = some p) :
    availOf (incrementStock s pid q) pid = availOf s pid + q := by
  have hid := findProduct_id h
  simp [availOf, findProduct_increment, h, hid]

theorem availOf_decrement_self {s : SysState} {pid : Nat} {p : Product} (q : Int)
    (h : findProduct s pid = some p) :
    availOf (decrementStock s pid q) pid = availOf s pid - q := by
  have hid := findProduct_id h
  simp [availOf, findProduct_decrement, h, hid]

theorem availOf_congr {s1 s2 : SysState} (h : s1.products = s2.products) (pid : Nat) :
    availOf s1 pid = availOf s2 pid := by
  simp [availOf, findProduct, h]

/-! ### Run lemmas: how each operation evaluates on a located claim -/

theorem expire_noop_of_terminal {s : SysState} {rid : Nat} {c : Reservation}
    (hf : findReservation s rid = some c) (hst : c.status ≠ .ACTIVE) :
    expireReservation s rid = (.skipped, s) := by
  unfold expireReservation
  rw [hf]
  simp [if_pos hst]

theorem complete_noop_of_terminal {s : SysState} {rid : Nat} {c : Reservation}
    (now : Nat) (hf : findReservation s rid = some c) (hst : c.status ≠ .ACTIVE) :
    complete s rid now = (.error (.cannotComplete c.status), s) := by
  unfold complete completeCore
  rw [hf]
  simp [if_pos hst]

theorem expire_applied_run {s : SysState} {rid : Nat} {c : Reservation}
    (hf : findReservation s rid = some c) (hst : c.status = .ACTIVE) :
    expireReservation s rid = (.applied,
      incrementStock (saveReservation s { c with status := .EXPIRED })
        c.productId c.quantity) := by
  unfold expireReservation
  rw [hf]
  simp [hst]

theorem complete_expired_run {s : SysState} {rid : Nat} {c : Reservation} {now : Nat}
    (hf : findReservation s rid = some c) (hst : c.status = .ACTIVE)
    (hlate : c.expiresAt < now) :
    complete s rid now = (.error .expired,
      incrementStock (saveReservation s { c with status := .EXPIRED })
        c.productId c.quantity) := by
  unfold complete completeCore
  rw [hf]
  simp [hst, hlate]

theorem complete_ok_run {s : SysState} {rid : Nat} {c : Reservation} {now : Nat}
    (hf : findReservation s rid = some c) (hst : c.status = .ACTIVE)
    (hontime : ¬ c.expiresAt < now) :
    complete s rid now = (.ok { c with status := .COMPLETED },
      saveReservation s { c with status := .COMPLETED }) := by
  unfold complete completeCore
  rw [hf]
  simp [hst, hontime]

/-! ### A terminal claim's record survives every step unchanged -/

theorem findReservation_create_of_found {s : SysState} {rid : Nat} {r : Reservation}
    (pid : Nat) (q : Int) (now : Nat) (infra : Bool)
    (h : findReservation s rid = some r) :
    findReservation (create s pid q now infra).2 rid = some r := by
  unfold create
  by_cases h1 : q < 1
  · simp [h1, h]
  · simp only [if_neg h1]
    cases infra with
    | true => simpa using h
    | false =>
      simp only [Bool.false_eq_true, if_false]
      cases hf : findProduct s pid with
      | none => simpa using h
      | some p =>
        by_cases h2 : p.availableStock < q
        · simp [h2, h]
        · simp only [h2, if_false]
          unfold findReservation at h ⊢
          simp only [decrementStock]
          rw [List.find?_append, h]
          rfl

theorem findReservation_complete_of_terminal {s : SysState} {c : Reservation}
    (rid : Nat) (now : Nat)
    (hf : findReservation s c.id = some c) (hst : c.status ≠ .ACTIVE) :
    findReservation (complete s rid now).2 c.id = some c := by
  cases hd : findReservation s rid with
  | none =>
    unfold complete completeCore
    rw [hd]
    simpa using hf
  | some d =>
    by_cases hds : d.status = .ACTIVE
    · have hne : c.id ≠ d.id := by
        intro he
        have hid := findReservation_id hd
        rw [← hid, ← he, hf] at hd
        cases hd
        exact hst hds
      by_cases hnow : d.expiresAt < now
      · rw [complete_expired_run hd hds hnow, findReservation_increment,
          findReservation_save, hf]
        simp [hne]
      · rw [complete_ok_run hd hds hnow, findReservation_save, hf]
        simp [hne]
    · rw [complete_noop_of_terminal now hd hds]
      exact hf

theorem findReservation_expire_of_terminal {s : SysState} {c : Reservation}
    (rid : Nat) (hf : findReservation s c.id = some c) (hst : c.status ≠ .ACTIVE) :
    findReservation (expireReservation s rid).2 c.id = some c := by
  cases hd : findReservation s rid with
  | none =>
    unfold expireReservation
    rw [hd]
    simpa using hf
  | some d =>
    by_cases hds : d.status = .ACTIVE
    · have hne : c.id ≠ d.id := by
        intro he
        have hid := findReservation_id hd
        rw [← hid, ← he, hf] at hd
        cases hd
        exact hst hds
      rw [expire_applied_run hd hds, findReservation_increment,
        findReservation_save, hf]
      simp [hne]
    · rw [expire_noop_of_terminal hd hds]
      exact hf

/-! ### Claim C7 -/

/-- C7: every `reserve` call with `quantity < 1` is rejected with
`InvalidQuantity` before any mutation: the returned state is exactly the
input state, so the ledger and the claim store are untouched. -/
theorem reserve_rejects_invalid_quantity (s : SysState) (pid : Nat) (q : Int)
    (now : Nat) (infraFail : Bool) (h : q < 1) :
    create s pid q now infraFail = (.error .invalidQuantity, s) := by
  simp [create, if_pos h]

theorem reserve_rejects_invalid_quantity_witness :
    (0 : Int) < 1 ∧
      create { products := [⟨1, 5, 5⟩], reservations := [], nextId := 0 } 1 0 7 false =
        (.error .invalidQuantity, { products := [⟨1, 5, 5⟩], reservations := [], nextId := 0 }) :=
  ⟨by decide,
    reserve_rejects_invalid_quantity
      { products := [⟨1, 5, 5⟩], reservations := [], nextId := 0 } 1 0 7 false (by decide)⟩

/-! ### Claim C10 -/

/-- C10: calling `expireReservation` with an id matching no claim returns
normally (the `skipped` path, no error and no `NotFound`) and leaves the
state — every claim record and every product's stock — unchanged. -/
theorem resolveExpiry_unknown_id_noop (s : SysState) (rid : Nat)
    (h : findReservation s rid = none) :
    expireReservation s rid = (.skipped, s) := by
  simp [expireReservation, h]

theorem resolveExpiry_unknown_id_noop_witness :
    findReservation { products := [⟨1, 5, 5⟩], reservations := [], nextId := 0 } 42 = none ∧
      expireReservation { products := [⟨1, 5, 5⟩], reservations := [], nextId := 0 } 42 =
        (.skipped, { products := [⟨1, 5, 5⟩], reservations := [], nextId := 0 }) :=
  ⟨by decide,
    resolveExpiry_unknown_id_noop
      { products := [⟨1, 5, 5⟩], reservations := [], nextId := 0 } 42 (by decide)⟩

/-! ### Claim C6 -/

/-- C6: whenever `reserve` returns an error — `InvalidQuantity`,
`NotFound`, `InsufficientStock`, or the generic infrastructure failure —
the whole operation rolls back: the returned state equals the input state,
so there is no partial decrement and no orphan claim. -/
theorem reserve_error_rollback (s : SysState) (pid : Nat) (q : Int) (now : Nat)
    (infraFail : Bool) (e : ServiceError)
    (h : (create s pid q now infraFail).1 = .error e) :
    (create s pid q now infraFail).2 = s := by
  unfold create at h ⊢
  by_cases h1 : q < 1
  · simp [h1]
  · simp only [if_neg h1] at h ⊢
    cases infraFail with
    | true => simp
    | false =>
      simp only [Bool.false_eq_true, if_false] at h ⊢
      cases hf : findProduct s pid with
      | none => simp [hf]
      | some p =>
        simp only [hf] at h ⊢
        by_cases h2 : p.availableStock < q
        · simp [h2]
        · simp [h2] at h

theorem reserve_error_rollback_witness :
    (create { products := [], reservations := [], nextId := 0 } 1 1 7 false).1 =
        .error .productNotFound ∧
      (create { products := [], reservations := [], nextId := 0 } 1 1 7 false).2 =
        { products := [], reservations := [], nextId := 0 } :=
  ⟨rfl,
    reserve_error_rollback { products := [], reservations := [], nextId := 0 } 1 1 7 false
      .productNotFound rfl⟩

/-! ### Claim C5 -/

/-- C5: for `reserve` with `quantity ≥ 1`: a missing resource fails
`NotFound` with no mutation; insufficient stock fails `InsufficientStock`
with no mutation; otherwise the call decrements `availableStock` by exactly
`quantity` and inserts a new `ACTIVE` (`PENDING`) claim for that quantity. -/
theorem reserve_spec (s : SysState) (pid : Nat) (q : Int) (now : Nat) (h1 : 1 ≤ q) :
    (findProduct s pid = none →
      create s pid q now false = (.error .productNotFound, s)) ∧
    (∀ p, findProduct s pid = some p → p.availableStock < q →
      create s pid q now false = (.error .insufficientStock, s)) ∧
    (∀ p, findProduct s pid = some p → q ≤ p.availableStock →
      (create s pid q now false).1 = .ok (newClaim s pid q now) ∧
      newClaim s pid q now ∈ (create s pid q now false).2.reservations ∧
      (newClaim s pid q now).status = .ACTIVE ∧
      (newClaim s pid q now).quantity = q ∧
      availOf (create s pid q now false).2 pid = availOf s pid - q) := by
  have hq : ¬ q < 1 := not_lt.mpr h1
  refine ⟨?_, ?_, ?_⟩
  · intro hf; simp [create, hq, hf]
  · intro p hf hlt; simp [create, hq, hf, hlt]
  · intro p hf hle
    have hlt : ¬ p.availableStock < q := not_lt.mpr hle
    have hprod : (create s pid q now false).2.products = (decrementStock s pid q).products := by
      simp [create, hq, hf, hlt]
    refine ⟨?_, ?_, rfl, rfl, ?_⟩
    · simp [create, hq, hf, hlt, newClaim]
    · simp [create, hq, hf, hlt, decrementStock, newClaim]
    · rw [availOf_congr hprod]
      exact availOf_decrement_self q hf

theorem reserve_spec_witness :
    (1 : Int) ≤ 2 ∧
      (create { products := [⟨1, 5, 5⟩], reservations := [], nextId := 0 } 1 2 7 false).1 =
        .ok (newClaim { products := [⟨1, 5, 5⟩], reservations := [], nextId := 0 } 1 2 7) ∧
      availOf (create { products := [⟨1, 5, 5⟩], reservations := [], nextId := 0 } 1 2 7 false).2 1 =
        availOf { products := [⟨1, 5, 5⟩], reservations := [], nextId := 0 } 1 - 2 := by
  have h := reserve_spec { products := [⟨1, 5, 5⟩], reservations := [], nextId := 0 } 1 2 7
    (by decide)
  have h3 := h.2.2 ⟨1, 5, 5⟩ (by decide) (by decide)
  exact ⟨by decide, h3.1, h3.2.2.2.2⟩

/-! ### Claim C9 -/

/-- C9: confirming an `ACTIVE` (`PENDING`) claim at the exact instant of
its deadline is not treated as expiry: the claim becomes `COMPLETED`
(`CONFIRMED`), the confirmed claim is returned, and no product's
`availableStock` changes — the expiry branch needs `now` strictly after
the deadline. -/
theorem confirm_at_deadline_succeeds (s : SysState) (c : Reservation)
    (hf : findReservation s c.id = some c) (hst : c.status = .ACTIVE) :
    complete s c.id c.expiresAt =
      (.ok { c with status := .COMPLETED },
        saveReservation s { c with status := .COMPLETED }) ∧
    findReservation (complete s c.id c.expiresAt).2 c.id =
      some { c with status := .COMPLETED } ∧
    ∀ pid, availOf (complete s c.id c.expiresAt).2 pid = availOf s pid := by
  have h1 : complete s c.id c.expiresAt =
      (.ok { c with status := .COMPLETED },
        saveReservation s { c with status := .COMPLETED }) := by
    unfold complete completeCore
    rw [hf]
    simp [hst]
  refine ⟨h1, ?_, ?_⟩
  · rw [h1, findReservation_save, hf]
    simp
  · intro pid
    rw [h1]
    exact availOf_save s _ pid

theorem confirm_at_deadline_succeeds_witness :
    findReservation exampleMid 0 = some ⟨0, 1, 2, .ACTIVE, 0, 100⟩ ∧
      (⟨0, 1, 2, .ACTIVE, 0, 100⟩ : Reservation).status = .ACTIVE ∧
      (complete exampleMid 0 100).1 = .ok ⟨0, 1, 2, .COMPLETED, 0, 100⟩ ∧
      availOf (complete exampleMid 0 100).2 1 = availOf exampleMid 1 := by
  have h := confirm_at_deadline_succeeds exampleMid ⟨0, 1, 2, .ACTIVE, 0, 100⟩
    (by decide) rfl
  exact ⟨by decide, rfl, by rw [h.1], h.2.2 1⟩

/-! ### Claim C3 -/

/-- C3: for a claim whose status is not `ACTIVE` (`PENDING`) — i.e.
`COMPLETED` or `EXPIRED`, both terminal — any transition attempt is a
no-op reporting the already-resolved outcome: `complete` returns the
`cannotComplete` error with the state unchanged, `expireReservation`
returns `skipped` with the state unchanged, and no step of the system
(`reserve`, `confirm`, `resolveExpiry`, with any arguments) ever changes
the claim's record again. -/
theorem terminal_claim_noop (s : SysState) (c : Reservation) (now : Nat)
    (hf : findReservation s c.id = some c) (hst : c.status ≠ .ACTIVE) :
    complete s c.id now = (.error (.cannotComplete c.status), s) ∧
    expireReservation s c.id = (.skipped, s) ∧
    ∀ s', Step s s' → findReservation s' c.id = some c := by
  refine ⟨complete_noop_of_terminal now hf hst, expire_noop_of_terminal hf hst, ?_⟩
  intro s' hstep
  cases hstep with
  | reserve pid q n i => exact findReservation_create_of_found pid q n i hf
  | confirm rid n => exact findReservation_complete_of_terminal rid n hf hst
  | resolveExpiry rid => exact findReservation_expire_of_terminal rid hf hst

theorem terminal_claim_noop_witness :
    findReservation exampleDone 0 = some ⟨0, 1, 2, .COMPLETED, 0, 100⟩ ∧
      (⟨0, 1, 2, .COMPLETED, 0, 100⟩ : Reservation).status ≠ .ACTIVE ∧
      complete exampleDone 0 300 = (.error (.cannotComplete .COMPLETED), exampleDone) ∧
      expireReservation exampleDone 0 = (.skipped, exampleDone) := by
  have h := terminal_claim_noop exampleDone ⟨0, 1, 2, .COMPLETED, 0, 100⟩ 300
    (by decide) (by decide)
  exact ⟨by decide, by decide, h.1, h.2.1⟩

/-! ### Claim C2 -/

/-- C2: calling `expireReservation` twice on the same claim credits the
stock exactly once: the first call applies the `ACTIVE → EXPIRED`
(`PENDING → RELEASED`) transition and adds the claim's quantity to the
product's `availableStock`; the second call skips (the spec's
`AlreadyResolved`) and changes nothing at all. -/
theorem resolveExpiry_idempotent (s : SysState) (c : Reservation) (p : Product)
    (hf : findReservation s c.id = some c) (hst : c.status = .ACTIVE)
    (hp : findProduct s c.productId = some p) :
    (expireReservation s c.id).1 = .applied ∧
    findReservation (expireReservation s c.id).2 c.id =
      some { c with status := .EXPIRED } ∧
    availOf (expireReservation s c.id).2 c.productId =
      availOf s c.productId + c.quantity ∧
    expireReservation (expireReservation s c.id).2 c.id =
      (.skipped, (expireReservation s c.id).2) := by
  have hrun := expire_applied_run hf hst
  have hfind2 : findReservation (expireReservation s c.id).2 c.id =
      some { c with status := .EXPIRED } := by
    rw [hrun]
    show findReservation (incrementStock _ _ _) c.id = _
    rw [findReservation_increment, findReservation_save, hf]
    simp
  refine ⟨by rw [hrun], hfind2, ?_, ?_⟩
  · rw [hrun]
    show availOf (incrementStock _ _ _) c.productId = _
    have hp2 : findProduct (saveReservation s { c with status := .EXPIRED })
        c.productId = some p := hp
    rw [availOf_increment_self c.quantity hp2, availOf_save]
  · exact expire_noop_of_terminal hfind2 (by simp)

theorem resolveExpiry_idempotent_witness :
    findReservation exampleMid 0 = some ⟨0, 1, 2, .ACTIVE, 0, 100⟩ ∧
      findProduct exampleMid 1 = some ⟨1, 3, 5⟩ ∧
      (expireReservation exampleMid 0).1 = .applied ∧
      availOf (expireReservation exampleMid 0).2 1 = availOf exampleMid 1 + 2 ∧
      expireReservation (expireReservation exampleMid 0).2 0 =
        (.skipped, (expireReservation exampleMid 0).2) := by
  have h := resolveExpiry_idempotent exampleMid ⟨0, 1, 2, .ACTIVE, 0, 100⟩ ⟨1, 3, 5⟩
    (by decide) rfl (by decide)
  exact ⟨by decide, by decide, h.1, h.2.2.1, h.2.2.2⟩

/-! ### Claim C4 -/

/-- C4: confirming an `ACTIVE` (`PENDING`) claim whose deadline has
strictly passed returns the `expired` error, moves the claim to `EXPIRED`
(`RELEASED`), and credits the product's `availableStock` by the claim's
quantity exactly once — the resulting state is exactly the state a single
`expireReservation` would produce. If a background trigger resolved the
claim between `complete`'s first read and its re-read, `complete` still
returns `expired` but performs no further credit: the state is unchanged
from the one the trigger left. -/
theorem confirm_after_expiry (s : SysState) (c : Reservation) (p : Product) (now : Nat)
    (hf : findReservation s c.id = some c) (hst : c.status = .ACTIVE)
    (hp : findProduct s c.productId = some p) (hlate : c.expiresAt < now) :
    (complete s c.id now).1 = .error .expired ∧
    findReservation (complete s c.id now).2 c.id =
      some { c with status := .EXPIRED } ∧
    availOf (complete s c.id now).2 c.productId =
      availOf s c.productId + c.quantity ∧
    (complete s c.id now).2 = (expireReservation s c.id).2 ∧
    completeCore s (expireReservation s c.id).2 c.id now =
      (.error .expired, (expireReservation s c.id).2) := by
  have hrunC := complete_expired_run hf hst hlate
  have hrunE := expire_applied_run hf hst
  have hfind2 : findReservation (expireReservation s c.id).2 c.id =
      some { c with status := .EXPIRED } := by
    rw [hrunE]
    show findReservation (incrementStock _ _ _) c.id = _
    rw [findReservation_increment, findReservation_save, hf]
    simp
  refine ⟨by rw [hrunC], ?_, ?_, ?_, ?_⟩
  · rw [hrunC]
    show findReservation (incrementStock _ _ _) c.id = _
    rw [findReservation_increment, findReservation_save, hf]
    simp
  · rw [hrunC]
    show availOf (incrementStock _ _ _) c.productId = _
    have hp2 : findProduct (saveReservation s { c with status := .EXPIRED })
        c.productId = some p := hp
    rw [availOf_increment_self c.quantity hp2, availOf_save]
  · rw [hrunC, hrunE]
  · unfold completeCore
    rw [hf]
    simp only [hst, hlate]
    rw [hfind2]
    simp [hst, hlate]

theorem confirm_after_expiry_witness :
    findReservation exampleMid 0 = some ⟨0, 1, 2, .ACTIVE, 0, 100⟩ ∧
      findProduct exampleMid 1 = some ⟨1, 3, 5⟩ ∧
      (100 : Nat) < 101 ∧
      (complete exampleMid 0 101).1 = .error .expired ∧
      availOf (complete exampleMid 0 101).2 1 = availOf exampleMid 1 + 2 ∧
      (complete exampleMid 0 101).2 = (expireReservation exampleMid 0).2 := by
  have h := confirm_after_expiry exampleMid ⟨0, 1, 2, .ACTIVE, 0, 100⟩ ⟨1, 3, 5⟩ 101
    (by decide) rfl (by decide) (by decide)
  exact ⟨by decide, by decide, by decide, h.1, h.2.2.1, h.2.2.2.1⟩

/-! ### Bookkeeping lemmas for the ledger invariant -/

theorem map_id_stable {α β : Type} (f : α → α) (g : α → β) (l : List α)
    (h : ∀ x, g (f x) = g x) : (l.map f).map g = l.map g := by
  rw [List.map_map]
  exact List.map_congr_left fun x _ => h x

theorem listPendingSum_append (l1 l2 : List Reservation) (pid : Nat) :
    listPendingSum (l1 ++ l2) pid = listPendingSum l1 pid + listPendingSum l2 pid := by
  simp [listPendingSum, List.filter_append]

theorem listPendingSum_cons (r : Reservation) (l : List Reservation) (pid : Nat) :
    listPendingSum (r :: l) pid =
      (if r.status = .ACTIVE ∧ r.productId = pid then r.quantity else 0) +
        listPendingSum l pid := by
  simp only [listPendingSum, List.filter_cons]
  by_cases h : r.status = .ACTIVE ∧ r.productId = pid <;> simp [h]

theorem listPendingSum_nil (pid : Nat) : listPendingSum [] pid = 0 := rfl

theorem idmap_save (s : SysState) (rec : Reservation) :
    (saveReservation s rec).reservations.map Reservation.id =
      s.reservations.map Reservation.id := by
  apply map_id_stable
  intro r
  by_cases h : r.id = rec.id <;> simp [h]

theorem idmap_increment (s : SysState) (pid : Nat) (q : Int) :
    (incrementStock s pid q).products.map Product.id =
      s.products.map Product.id := by
  apply map_id_stable
  intro p
  by_cases h : p.id = pid <;> simp [h]

theorem idmap_decrement (s : SysState) (pid : Nat) (q : Int) :
    (decrementStock s pid q).products.map Product.id =
      s.products.map Product.id := by
  apply map_id_stable
  intro p
  by_cases h : p.id = pid <;> simp [h]

theorem mem_save {s : SysState} {rec r : Reservation}
    (h : r ∈ (saveReservation s rec).reservations) :
    r = rec ∨ r ∈ s.reservations := by
  simp only [saveReservation, List.mem_map] at h
  obtain ⟨x, hx, hfx⟩ := h
  by_cases hid : x.id = rec.id
  · left
    rw [← hfx]
    simp [hid]
  · right
    rw [← hfx]
    simpa [hid] using hx

theorem save_resolve_decomp {s : SysState} {rid : Nat} {c : Reservation}
    (hf : findReservation s rid = some c)
    (hnodup : (s.reservations.map Reservation.id).Nodup)
    (ns : ReservationStatus) :
    ∃ l1 l2, s.reservations = l1 ++ c :: l2 ∧
      (saveReservation s { c with status := ns }).reservations =
        l1 ++ { c with status := ns } :: l2 ∧
      (∀ x ∈ l1, x.id ≠ c.id) ∧ ∀ x ∈ l2, x.id ≠ c.id := by
  obtain ⟨l1, l2, hsplit, hl1⟩ := find?_split _ hf
  have hnotin : c.id ∉ (l1.map Reservation.id ++ l2.map Reservation.id) := by
    rw [hsplit] at hnodup
    simp only [List.map_append, List.map_cons] at hnodup
    have := (List.nodup_middle).mp hnodup
    exact (List.nodup_cons.mp this).1
  have h1 : ∀ x ∈ l1, x.id ≠ c.id := by
    intro x hx he
    exact hnotin (List.mem_append_left _ (he ▸ List.mem_map_of_mem Reservation.id hx))
  have h2 : ∀ x ∈ l2, x.id ≠ c.id := by
    intro x hx he
    exact hnotin (List.mem_append_right _ (he ▸ List.mem_map_of_mem Reservation.id hx))
  refine ⟨l1, l2, hsplit, ?_, h1, h2⟩
  simp only [saveReservation, hsplit, List.map_append, List.map_cons]
  have e1 : l1.map (fun r => if r.id = Reservation.id { c with status := ns }
      then { c with status := ns } else r) = l1 := by
    have : ∀ x ∈ l1, (if x.id = Reservation.id { c with status := ns }
        then { c with status := ns } else x) = x := by
      intro x hx
      simp [h1 x hx]
    calc l1.map _ = l1.map id := List.map_congr_left this
      _ = l1 := List.map_id l1
  have e2 : l2.map (fun r => if r.id = Reservation.id { c with status := ns }
      then { c with status := ns } else r) = l2 := by
    have : ∀ x ∈ l2, (if x.id = Reservation.id { c with status := ns }
        then { c with status := ns } else x) = x := by
      intro x hx
      simp [h2 x hx]
    calc l2.map _ = l2.map id := List.map_congr_left this
      _ = l2 := List.map_id l2
  rw [e1, e2]
  simp

theorem pendingSum_save_resolve {s : SysState} {rid : Nat} {c : Reservation}
    (hf : findReservation s rid = some c) (hst : c.status = .ACTIVE)
    (hnodup : (s.reservations.map Reservation.id).Nodup)
    {ns : ReservationStatus} (hns : ns ≠ .ACTIVE) (pid : Nat) :
    pendingSum (saveReservation s { c with status := ns }) pid =
      pendingSum s pid - (if c.productId = pid then c.quantity else 0) := by
  obtain ⟨l1, l2, hsplit, hsave, _, _⟩ := save_resolve_decomp hf hnodup ns
  unfold pendingSum
  rw [hsave, hsplit, listPendingSum_append, listPendingSum_append,
    listPendingSum_cons, listPendingSum_cons]
  simp only [hst, hns, true_and, false_and, if_false]
  by_cases hpp : c.productId = pid
  · simp [hpp]
    ring
  · simp [hpp]

theorem pendingSum_increment (s : SysState) (pid : Nat) (q : Int) (pid' : Nat) :
    pendingSum (incrementStock s pid q) pid' = pendingSum s pid' := rfl

theorem pendingSum_decrement (s : SysState) (pid : Nat) (q : Int) (pid' : Nat) :
    pendingSum (decrementStock s pid q) pid' = pendingSum s pid' := rfl

theorem findProduct_unique {s : SysState} {pid : Nat} {p0 p : Product}
    (hnodup : (s.products.map Product.id).Nodup)
    (hf : findProduct s pid = some p0) (hp : p ∈ s.products) (hid : p.id = pid) :
    p = p0 := by
  obtain ⟨l1, l2, hsplit, hl1⟩ := find?_split _ hf
  have hp0id : p0.id = pid := findProduct_id hf
  rw [hsplit] at hp hnodup
  simp only [List.map_append, List.map_cons] at hnodup
  have hmid := (List.nodup_middle).mp hnodup
  have hnotin := (List.nodup_cons.mp hmid).1
  rcases List.mem_append.mp hp with h | h
  · have hfalse := hl1 p h
    rw [hid] at hfalse
    simp at hfalse
  · rcases List.mem_cons.mp h with rfl | h
    · rfl
    · exact absurd (List.mem_append_right _
        (by simpa [hid, hp0id] using List.mem_map_of_mem Product.id h)) hnotin

theorem inv_init {s : SysState} (h : Init s) : Inv s := by
  obtain ⟨hres, hprod, hnodup⟩ := h
  refine ⟨hnodup, ?_, ?_, ?_⟩
  · rw [hres]
    exact List.nodup_nil
  · rw [hres]
    simp
  · intro p hp
    obtain ⟨h1, h2⟩ := hprod p hp
    refine ⟨by rw [h1]; exact h2, ?_⟩
    unfold pendingSum
    rw [hres, listPendingSum_nil, h1]
    simp

theorem inv_expire (s : SysState) (rid : Nat) (h : Inv s) :
    Inv (expireReservation s rid).2 := by
  obtain ⟨hpn, hrn, hrb, hpb⟩ := h
  cases hd : findReservation s rid with
  | none =>
    have he : (expireReservation s rid).2 = s := by
      unfold expireReservation
      rw [hd]
    rw [he]
    exact ⟨hpn, hrn, hrb, hpb⟩
  | some c =>
    by_cases hcs : c.status = .ACTIVE
    · have hc_mem : c ∈ s.reservations := List.mem_of_find?_eq_some hd
      have hcq : 1 ≤ c.quantity := (hrb c hc_mem).2
      rw [expire_applied_run hd hcs]
      show Inv (incrementStock (saveReservation s { c with status := .EXPIRED })
        c.productId c.quantity)
      have hsum2 : ∀ pid, pendingSum (saveReservation s { c with status := .EXPIRED }) pid =
          pendingSum s pid - (if c.productId = pid then c.quantity else 0) :=
        pendingSum_save_resolve hd hcs hrn
          (show ReservationStatus.EXPIRED ≠ .ACTIVE by decide)
      refine ⟨?_, ?_, ?_, ?_⟩
      · rw [idmap_increment, saveReservation_products]
        exact hpn
      · rw [incrementStock_reservations, idmap_save]
        exact hrn
      · intro r hr
        have hr' : r ∈ (saveReservation s { c with status := .EXPIRED }).reservations := hr
        rcases mem_save hr' with rfl | hmem
        · exact ⟨(hrb c hc_mem).1, hcq⟩
        · exact hrb r hmem
      · intro p' hp'
        have hp'' : p' ∈ s.products.map fun p =>
            if p.id = c.productId
            then { p with availableStock := p.availableStock + c.quantity } else p := hp'
        rw [List.mem_map] at hp''
        obtain ⟨p, hp, rfl⟩ := hp''
        obtain ⟨hp0, hpsum⟩ := hpb p hp
        by_cases hpp : p.id = c.productId
        · rw [if_pos hpp]
          dsimp only
          refine ⟨by linarith, ?_⟩
          rw [pendingSum_increment, hsum2 p.id, if_pos hpp.symm]
          linarith
        · rw [if_neg hpp]
          refine ⟨hp0, ?_⟩
          rw [pendingSum_increment, hsum2 p.id, if_neg fun he => hpp he.symm]
          linarith
    · have he := expire_noop_of_terminal hd hcs
      rw [he]
      exact ⟨hpn, hrn, hrb, hpb⟩

theorem decrementStock_reservations (s : SysState) (pid : Nat) (q : Int) :
    (decrementStock s pid q).reservations = s.reservations := rfl

theorem pendingSum_state_eq (s' : SysState) (pid' : Nat) :
    pendingSum s' pid' = listPendingSum s'.reservations pid' := rfl

theorem listPendingSum_single_active (rid pid2 : Nat) (q2 : Int) (ca ce : Nat)
    (pid' : Nat) :
    listPendingSum [⟨rid, pid2, q2, .ACTIVE, ca, ce⟩] pid' =
      if pid2 = pid' then q2 else 0 := by
  rw [listPendingSum_cons, listPendingSum_nil]
  simp

theorem inv_complete (s : SysState) (rid : Nat) (now : Nat) (h : Inv s) :
    Inv (complete s rid now).2 := by
  cases hd : findReservation s rid with
  | none =>
    have he : (complete s rid now).2 = s := by
      unfold complete completeCore
      rw [hd]
    rw [he]
    exact h
  | some c =>
    by_cases hcs : c.status = .ACTIVE
    · by_cases hnow : c.expiresAt < now
      · have he : (complete s rid now).2 = (expireReservation s rid).2 := by
          rw [complete_expired_run hd hcs hnow, expire_applied_run hd hcs]
        rw [he]
        exact inv_expire s rid h
      · obtain ⟨hpn, hrn, hrb, hpb⟩ := h
        have hc_mem : c ∈ s.reservations := List.mem_of_find?_eq_some hd
        have hcq : 1 ≤ c.quantity := (hrb c hc_mem).2
        rw [complete_ok_run hd hcs hnow]
        show Inv (saveReservation s { c with status := .COMPLETED })
        have hsum2 := pendingSum_save_resolve hd hcs hrn
          (show ReservationStatus.COMPLETED ≠ .ACTIVE by decide)
        refine ⟨hpn, ?_, ?_, ?_⟩
        · rw [idmap_save]
          exact hrn
        · intro r hr
          rcases mem_save hr with rfl | hmem
          · exact ⟨(hrb c hc_mem).1, hcq⟩
          · exact hrb r hmem
        · intro p hp
          have hp' : p ∈ s.products := hp
          obtain ⟨hp0, hpsum⟩ := hpb p hp'
          refine ⟨hp0, ?_⟩
          rw [hsum2 p.id]
          by_cases hpp : c.productId = p.id
          · rw [if_pos hpp]
            linarith
          · rw [if_neg hpp]
            linarith
    · have he := complete_noop_of_terminal now hd hcs
      rw [he]
      exact h

theorem inv_create (s : SysState) (pid : Nat) (q : Int) (now : Nat) (infra : Bool)
    (h : Inv s) : Inv (create s pid q now infra).2 := by
  obtain ⟨hpn, hrn, hrb, hpb⟩ := h
  unfold create
  by_cases h1 : q < 1
  · simpa [h1] using ⟨hpn, hrn, hrb, hpb⟩
  · simp only [if_neg h1]
    cases infra with
    | true => simpa using ⟨hpn, hrn, hrb, hpb⟩
    | false =>
      simp only [Bool.false_eq_true, if_false]
      cases hf : findProduct s pid with
      | none => simpa using ⟨hpn, hrn, hrb, hpb⟩
      | some product =>
        by_cases h2 : product.availableStock < q
        · simpa [h2] using ⟨hpn, hrn, hrb, hpb⟩
        · simp only [h2, if_false]
          have hq1 : 1 ≤ q := not_lt.mp h1
          have hqstock : q ≤ product.availableStock := not_lt.mp h2
          refine ⟨?_, ?_, ?_, ?_⟩
          · show (((decrementStock s pid q).products).map Product.id).Nodup
            rw [idmap_decrement]
            exact hpn
          · show ((((decrementStock s pid q).reservations) ++ [_]).map
              Reservation.id).Nodup
            rw [decrementStock_reservations, List.map_append]
            apply List.nodup_append.mpr
            refine ⟨hrn, List.nodup_singleton _, ?_⟩
            intro a ha hb
            obtain ⟨r, hr, rfl⟩ := List.mem_map.mp ha
            have hlt := (hrb r hr).1
            have : r.id = s.nextId := by simpa using hb
            omega
          · intro r hr
            rw [decrementStock_reservations] at hr
            rcases List.mem_append.mp hr with hmem | hmem
            · obtain ⟨hlt, hq⟩ := hrb r hmem
              exact ⟨Nat.lt_succ_of_lt hlt, hq⟩
            · have : r = newClaim s pid q now := by simpa [newClaim] using hmem
              rw [this]
              exact ⟨Nat.lt_succ_self _, hq1⟩
          · intro p' hp'
            have hp'' : p' ∈ s.products.map fun p =>
                if p.id = pid
                then { p with availableStock := p.availableStock - q } else p := hp'
            rw [List.mem_map] at hp''
            obtain ⟨p, hp, rfl⟩ := hp''
            obtain ⟨hp0, hpsum⟩ := hpb p hp
            have hpsum' : listPendingSum s.reservations p.id + p.availableStock ≤
                p.totalStock := hpsum
            by_cases hpp : p.id = pid
            · have hpprod : p = product := findProduct_unique hpn hf hp hpp
              rw [if_pos hpp]
              dsimp only
              refine ⟨by rw [hpprod]; linarith, ?_⟩
              rw [pendingSum_state_eq]
              dsimp only
              rw [decrementStock_reservations, listPendingSum_append,
                listPendingSum_single_active, if_pos hpp.symm]
              linarith
            · rw [if_neg hpp]
              refine ⟨hp0, ?_⟩
              rw [pendingSum_state_eq]
              dsimp only
              rw [decrementStock_reservations, listPendingSum_append,
                listPendingSum_single_active, if_neg fun he => hpp he.symm]
              linarith

/-! ### Claim C8 -/

/-- C8 counterexample: the sweeper query uses a strict comparison
(`expiresAt` strictly less than `now`), so an `ACTIVE` (`PENDING`) claim
whose deadline equals `now` is NOT returned, contradicting the claimed
`deadline <= now` semantics at this concrete input. -/
theorem sweep_query_misses_boundary :
    (⟨0, 1, 2, .ACTIVE, 0, 100⟩ : Reservation) ∈ exampleMid.reservations ∧
    (⟨0, 1, 2, .ACTIVE, 0, 100⟩ : Reservation).status = .ACTIVE ∧
    (⟨0, 1, 2, .ACTIVE, 0, 100⟩ : Reservation).expiresAt ≤ 100 ∧
    findExpiredPending exampleMid 100 = [] := by decide

/-- C8 (amended): `findExpiredPending now` returns exactly the `ACTIVE`
(`PENDING`) claims whose deadline is strictly before `now`; a claim whose
deadline equals `now` is excluded until a later tick. -/
theorem sweep_query_characterization (s : SysState) (now : Nat) (r : Reservation) :
    r ∈ findExpiredPending s now ↔
      r ∈ s.reservations ∧ r.status = .ACTIVE ∧ r.expiresAt < now := by
  simp [findExpiredPending, List.mem_filter]

/-! ### Claim C1 -/

theorem inv_step {s s' : SysState} (hstep : Step s s') (h : Inv s) : Inv s' := by
  cases hstep with
  | reserve pid q now infra => exact inv_create s pid q now infra h
  | confirm rid now => exact inv_complete s rid now h
  | resolveExpiry rid => exact inv_expire s rid h

/-- C1: in every state reachable from an initial state (every product full,
no claims) by any sequence of `reserve`, `confirm` and `resolveExpiry`
calls, every product's `availableStock` is non-negative, and the sum of
the quantities of its `ACTIVE` (`PENDING`) claims plus its
`availableStock` never exceeds its `totalStock`. -/
theorem no_oversell (s0 s : SysState) (h : Reachable s0 s) :
    ∀ p ∈ s.products, 0 ≤ p.availableStock ∧
      pendingSum s p.id + p.availableStock ≤ p.totalStock := by
  obtain ⟨hinit, hsteps⟩ := h
  have hinv : Inv s := by
    induction hsteps with
    | refl => exact inv_init hinit
    | tail _ hbc ih => exact inv_step hbc ih
  exact hinv.2.2.2

theorem no_oversell_witness :
    Reachable exampleFresh
        (expireReservation (create exampleFresh 1 2 0 false).2 0).2 ∧
      ∀ p ∈ (expireReservation (create exampleFresh 1 2 0 false).2 0).2.products,
        0 ≤ p.availableStock ∧
          pendingSum (expireReservation (create exampleFresh 1 2 0 false).2 0).2 p.id +
            p.availableStock ≤ p.totalStock := by
  have hreach : Reachable exampleFresh
      (expireReservation (create exampleFresh 1 2 0 false).2 0).2 := by
    refine ⟨⟨rfl, by decide, by decide⟩, ?_⟩
    exact Relation.ReflTransGen.tail
      (Relation.ReflTransGen.tail Relation.ReflTransGen.refl
        (Step.reserve exampleFresh 1 2 0 false))
      (Step.resolveExpiry (create exampleFresh 1 2 0 false).2 0)
  exact ⟨hreach, no_oversell _ _ hreach⟩

end FlashSale
